import Mathlib

/-!
Verification development for the character-frequency difficulty engine.

The source program analyzes Chinese text files: it builds a character
frequency table, computes coverage statistics against precomputed
reference character sets, walks cumulative coverage milestones, averages
dictionary ranks, and combines everything into a weighted difficulty
score.  This file gives a shallow embedding of that core in Lean.

Modelling conventions:
- characters are natural numbers (code points);
- a frequency table is a total function from characters to counts
  (characters absent from the document map to 0, matching the
  Counter.get default of the source);
- Python dictionaries keyed by integers become association lists read
  through List.lookup (first binding wins, as for a dict with unique
  keys);
- Python sets become Finset over the naturals;
- float arithmetic is modelled exactly: the ratio computations over the
  rationals, and the difficulty-score computations (which involve real
  powers with fractional exponents) over the reals, with the Python
  power operator modelled by the real power Real.rpow;
- the star-display mapping of the score is outside every claim and is
  not modelled.
-/

/-- A coverage statistic for one threshold, mirroring the dict returned
by calculate_coverage_stats_optimized in the source. -/
structure CoverageStat where
  actual_n : ℕ
  coverage : ℚ
  avg_count : ℚ
  total_count : ℕ
  deriving Repr, DecidableEq

/-- Fallback path of precompute_reference_sets: when the head list is
empty, the reference set for a threshold consists of the keys of the
rank mapping whose rank is at most the threshold. -/
def refSetFromOrder (charOrder : List (ℕ × ℕ)) (topN : ℕ) : Finset ℕ :=
  ((charOrder.filter (fun p => p.2 ≤ topN)).map Prod.fst).toFinset

/-- Head-list path of precompute_reference_sets for a single threshold:
take the first topN head characters when the head list is long enough,
otherwise take the whole head list and fill the remainder from the rank
mapping in increasing rank order, skipping characters already in the
head list. -/
def refSetFromHead (referenceChars : List ℕ) (charOrder : List (ℕ × ℕ)) (topN : ℕ) : Finset ℕ :=
  if topN ≤ referenceChars.length then
    (referenceChars.take topN).toFinset
  else
    referenceChars.toFinset ∪
      (((((charOrder.mergeSort (fun a b => a.2 ≤ b.2)).filter
            (fun p => p.1 ∉ referenceChars.toFinset)).take
          (topN - referenceChars.length)).map Prod.fst).toFinset)

/-- Embedding of precompute_reference_sets: builds the cache mapping
each requested threshold to its reference set.  The source stores the
sets in a dict; here the cache is an association list read through
List.lookup. -/
def precompute_reference_sets (referenceChars : List ℕ) (charOrder : List (ℕ × ℕ))
    (statsRanges : List ℕ) : List (ℕ × Finset ℕ) :=
  if referenceChars.isEmpty then
    statsRanges.map (fun topN => (topN, refSetFromOrder charOrder topN))
  else
    (statsRanges.mergeSort (fun a b => a ≤ b)).map
      (fun topN => (topN, refSetFromHead referenceChars charOrder topN))

/-- Embedding of calculate_coverage_stats_optimized: looks the threshold
up in the precomputed cache (defaulting to the empty set, as the
frozenset() default of the source), sums the document counts over the
reference set, and derives coverage percentage and average count with
the guarded divisions of the source. -/
def calculate_coverage_stats_optimized (topN : ℕ) (referenceSetsCache : List (ℕ × Finset ℕ))
    (charCounter : ℕ → ℕ) (totalChars : ℕ) : CoverageStat :=
  let refTopChars : Finset ℕ := (List.lookup topN referenceSetsCache).getD ∅
  let topCount : ℕ := ∑ c ∈ refTopChars, charCounter c
  let coverage : ℚ := if totalChars > 0 then ((topCount : ℚ) / (totalChars : ℚ)) * 100 else 0
  let avgCount : ℚ := if refTopChars.card > 0 then (topCount : ℚ) / (refTopChars.card : ℚ) else 0
  ⟨refTopChars.card, coverage, avgCount, topCount⟩

/-- Embedding of calculate_avg_char_order: collect the rank of every
listed character that occurs in the rank mapping (counts are never
consulted) and return the arithmetic mean, or none when no character is
mapped. -/
def calculate_avg_char_order (charsList : List (ℕ × ℕ)) (charOrder : List (ℕ × ℕ)) : Option ℚ :=
  let orders := charsList.filterMap (fun p => List.lookup p.1 charOrder)
  if orders.isEmpty then none
  else some ((orders.sum : ℚ) / (orders.length : ℚ))

/-- Modelled from the spec (section 4.5), for the refinement statement
of claim C8: the mean rank over a plain list of characters, with no
counts in sight. -/
def avgRankOverChars (chars : List ℕ) (charOrder : List (ℕ × ℕ)) : Option ℚ :=
  let ranks := chars.filterMap (fun c => List.lookup c charOrder)
  if ranks.isEmpty then none
  else some ((ranks.sum : ℚ) / (ranks.length : ℚ))

/-- Total number of characters of a frequency-table item list: the sum
of the counts, as total_chars = sum(char_counter.values()) in the
source. -/
def countSum (l : List (ℕ × ℕ)) : ℕ :=
  (l.map Prod.snd).sum

/-- Coverage percentage of a cumulative count against the document
total, the expression (cumulative_count / total_chars) * 100 of the
source. -/
def coveragePctAt (totalChars cum : ℕ) : ℚ :=
  ((cum : ℚ) / (totalChars : ℚ)) * 100

/-- The milestone percentages checked by the cumulative coverage walk,
in the order the source iterates them. -/
def milestoneList : List ℕ :=
  [50, 80, 90, 95, 99]

/-- Embedding of the cumulative-coverage loop of process_file: scan the
frequency-sorted items, keeping the 1-based index, the running
cumulative count and the still-pending milestones; at each character
emit every pending milestone reached by the new coverage percentage,
and stop early once no milestone is pending. -/
def walkAux (totalChars : ℕ) : List (ℕ × ℕ) → ℕ → ℕ → List ℕ → List (ℕ × ℕ × ℚ)
  | [], _, _, _ => []
  | (_, count) :: rest, idx, cum, pending =>
    let pct : ℚ := coveragePctAt totalChars (cum + count)
    let emitted := (pending.filter (fun (m : ℕ) => decide ((m : ℚ) ≤ pct))).map
      (fun m => (m, idx, pct))
    let stillPending := pending.filter (fun (m : ℕ) => ! decide ((m : ℚ) ≤ pct))
    if stillPending.isEmpty then emitted
    else emitted ++ walkAux totalChars rest (idx + 1) (cum + count) stillPending

/-- The frequency-descending ordering of the table items,
all_chars_by_freq = sorted(char_counter.items(), key=count,
reverse=True) in the source; mergeSort is stable, as the Python sort. -/
def all_chars_by_freq (items : List (ℕ × ℕ)) : List (ℕ × ℕ) :=
  items.mergeSort (fun a b => b.2 ≤ a.2)

/-- The full cumulative_coverage value built by process_file: the walk
over the frequency-sorted items followed by the unconditional final
point (100, distinct character count, 100.0). -/
def cumulative_coverage_of (items : List (ℕ × ℕ)) (totalChars : ℕ) : List (ℕ × ℕ × ℚ) :=
  walkAux totalChars (all_chars_by_freq items) 1 0 milestoneList ++
    [(100, items.length, (100 : ℚ))]

/-- Specification-side helper for claim C2: the first 1-based position
of the scan at which the coverage percentage reaches the milestone m,
starting from an already accumulated count cum; none when the list is
exhausted first. -/
def firstHit (totalChars m : ℕ) : ℕ → List (ℕ × ℕ) → Option ℕ
  | _, [] => none
  | cum, (_, count) :: rest =>
    if (m : ℚ) ≤ coveragePctAt totalChars (cum + count) then some 1
    else (firstHit totalChars m (cum + count) rest).map (· + 1)

/-- Cumulative count of the first j scanned items. -/
def prefixCount (l : List (ℕ × ℕ)) (j : ℕ) : ℕ :=
  ((l.take j).map Prod.snd).sum

/-- The scoring configuration of the difficulty engine: the module
level constants of the source (weights, interval bounds, acceleration
exponents and the coverage mode flag) gathered into one record, as the
spec directs. -/
structure ScoringConfig where
  WEIGHT_COVERAGE_500 : ℝ
  WEIGHT_COVERAGE_1000 : ℝ
  WEIGHT_COVERAGE_1500 : ℝ
  WEIGHT_CHARS_95 : ℝ
  WEIGHT_CHARS_99 : ℝ
  WEIGHT_ORDER_95 : ℝ
  WEIGHT_ORDER_99 : ℝ
  WEIGHT_CHAR_TYPES : ℝ
  CHARS_95_MIN : ℝ
  CHARS_95_MAX : ℝ
  CHARS_99_MIN : ℝ
  CHARS_99_MAX : ℝ
  ORDER_95_MIN : ℝ
  ORDER_95_MAX : ℝ
  ORDER_99_MIN : ℝ
  ORDER_99_MAX : ℝ
  CHAR_TYPES_MIN : ℝ
  CHAR_TYPES_MAX : ℝ
  COVERAGE_LINEAR_MODE : Bool
  COVERAGE_500_MIN : ℝ
  COVERAGE_500_MAX : ℝ
  COVERAGE_1000_MIN : ℝ
  COVERAGE_1000_MAX : ℝ
  COVERAGE_1500_MIN : ℝ
  COVERAGE_1500_MAX : ℝ
  COVERAGE_ACCELERATION : ℝ
  ORDER_ACCELERATION : ℝ

/-- The shipped configuration values of the source file (lines 48 to
110). -/
noncomputable def defaultConfig : ScoringConfig where
  WEIGHT_COVERAGE_500 := 10
  WEIGHT_COVERAGE_1000 := 10
  WEIGHT_COVERAGE_1500 := 20
  WEIGHT_CHARS_95 := 0
  WEIGHT_CHARS_99 := 0
  WEIGHT_ORDER_95 := 50
  WEIGHT_ORDER_99 := 30
  WEIGHT_CHAR_TYPES := 10
  CHARS_95_MIN := 300
  CHARS_95_MAX := 2500
  CHARS_99_MIN := 400
  CHARS_99_MAX := 4000
  ORDER_95_MIN := 400
  ORDER_95_MAX := 2000
  ORDER_99_MIN := 500
  ORDER_99_MAX := 3000
  CHAR_TYPES_MIN := 0
  CHAR_TYPES_MAX := 4500
  COVERAGE_LINEAR_MODE := true
  COVERAGE_500_MIN := 65
  COVERAGE_500_MAX := 92
  COVERAGE_1000_MIN := 80
  COVERAGE_1000_MAX := 98
  COVERAGE_1500_MIN := 88
  COVERAGE_1500_MAX := 99.5
  COVERAGE_ACCELERATION := 0.8
  ORDER_ACCELERATION := 0.7

/-- Coverage-at-500 dimension score: linear mode applies the accelerated
curve on (100 - coverage) / 100, interval mode clamps to the configured
interval and accelerates the interpolation ratio. -/
noncomputable def score_500_of (cfg : ScoringConfig) (coverage_500 : ℝ) : ℝ :=
  if cfg.COVERAGE_LINEAR_MODE then
    cfg.WEIGHT_COVERAGE_500 * (((100 - coverage_500) / 100) ^ cfg.COVERAGE_ACCELERATION)
  else if cfg.COVERAGE_500_MAX ≤ coverage_500 then 0
  else if coverage_500 ≤ cfg.COVERAGE_500_MIN then cfg.WEIGHT_COVERAGE_500
  else cfg.WEIGHT_COVERAGE_500 *
    (((cfg.COVERAGE_500_MAX - coverage_500) / (cfg.COVERAGE_500_MAX - cfg.COVERAGE_500_MIN)) ^
      cfg.COVERAGE_ACCELERATION)

/-- Coverage-at-1000 dimension score, same shape as the 500 dimension. -/
noncomputable def score_1000_of (cfg : ScoringConfig) (coverage_1000 : ℝ) : ℝ :=
  if cfg.COVERAGE_LINEAR_MODE then
    cfg.WEIGHT_COVERAGE_1000 * (((100 - coverage_1000) / 100) ^ cfg.COVERAGE_ACCELERATION)
  else if cfg.COVERAGE_1000_MAX ≤ coverage_1000 then 0
  else if coverage_1000 ≤ cfg.COVERAGE_1000_MIN then cfg.WEIGHT_COVERAGE_1000
  else cfg.WEIGHT_COVERAGE_1000 *
    (((cfg.COVERAGE_1000_MAX - coverage_1000) / (cfg.COVERAGE_1000_MAX - cfg.COVERAGE_1000_MIN)) ^
      cfg.COVERAGE_ACCELERATION)

/-- Coverage-at-1500 dimension score, same shape as the 500 dimension. -/
noncomputable def score_1500_of (cfg : ScoringConfig) (coverage_1500 : ℝ) : ℝ :=
  if cfg.COVERAGE_LINEAR_MODE then
    cfg.WEIGHT_COVERAGE_1500 * (((100 - coverage_1500) / 100) ^ cfg.COVERAGE_ACCELERATION)
  else if cfg.COVERAGE_1500_MAX ≤ coverage_1500 then 0
  else if coverage_1500 ≤ cfg.COVERAGE_1500_MIN then cfg.WEIGHT_COVERAGE_1500
  else cfg.WEIGHT_COVERAGE_1500 *
    (((cfg.COVERAGE_1500_MAX - coverage_1500) / (cfg.COVERAGE_1500_MAX - cfg.COVERAGE_1500_MIN)) ^
      cfg.COVERAGE_ACCELERATION)

/-- Required-characters-for-95% dimension score: plain clamp and
interpolate, with no acceleration exponent. -/
noncomputable def score_95_chars_of (cfg : ScoringConfig) (chars_for_95 : ℝ) : ℝ :=
  if chars_for_95 ≤ cfg.CHARS_95_MIN then 0
  else if cfg.CHARS_95_MAX ≤ chars_for_95 then cfg.WEIGHT_CHARS_95
  else cfg.WEIGHT_CHARS_95 * (chars_for_95 - cfg.CHARS_95_MIN) /
    (cfg.CHARS_95_MAX - cfg.CHARS_95_MIN)

/-- Required-characters-for-99% dimension score. -/
noncomputable def score_99_chars_of (cfg : ScoringConfig) (chars_for_99 : ℝ) : ℝ :=
  if chars_for_99 ≤ cfg.CHARS_99_MIN then 0
  else if cfg.CHARS_99_MAX ≤ chars_for_99 then cfg.WEIGHT_CHARS_99
  else cfg.WEIGHT_CHARS_99 * (chars_for_99 - cfg.CHARS_99_MIN) /
    (cfg.CHARS_99_MAX - cfg.CHARS_99_MIN)

/-- Average-rank-at-95% dimension score: the absent input gets exactly
half the weight, otherwise clamp and interpolate with the order
acceleration exponent. -/
noncomputable def score_95_order_of (cfg : ScoringConfig) (avgOrder95 : Option ℝ) : ℝ :=
  match avgOrder95 with
  | none => cfg.WEIGHT_ORDER_95 / 2
  | some v =>
    if v ≤ cfg.ORDER_95_MIN then 0
    else if cfg.ORDER_95_MAX ≤ v then cfg.WEIGHT_ORDER_95
    else cfg.WEIGHT_ORDER_95 *
      (((v - cfg.ORDER_95_MIN) / (cfg.ORDER_95_MAX - cfg.ORDER_95_MIN)) ^ cfg.ORDER_ACCELERATION)

/-- Average-rank-at-99% dimension score. -/
noncomputable def score_99_order_of (cfg : ScoringConfig) (avgOrder99 : Option ℝ) : ℝ :=
  match avgOrder99 with
  | none => cfg.WEIGHT_ORDER_99 / 2
  | some v =>
    if v ≤ cfg.ORDER_99_MIN then 0
    else if cfg.ORDER_99_MAX ≤ v then cfg.WEIGHT_ORDER_99
    else cfg.WEIGHT_ORDER_99 *
      (((v - cfg.ORDER_99_MIN) / (cfg.ORDER_99_MAX - cfg.ORDER_99_MIN)) ^ cfg.ORDER_ACCELERATION)

/-- Excess-character-types dimension score: plain clamp and
interpolate. -/
noncomputable def score_char_types_of (cfg : ScoringConfig) (extra_char_types : ℝ) : ℝ :=
  if extra_char_types ≤ cfg.CHAR_TYPES_MIN then 0
  else if cfg.CHAR_TYPES_MAX ≤ extra_char_types then cfg.WEIGHT_CHAR_TYPES
  else cfg.WEIGHT_CHAR_TYPES * (extra_char_types - cfg.CHAR_TYPES_MIN) /
    (cfg.CHAR_TYPES_MAX - cfg.CHAR_TYPES_MIN)

/-- The result record of the difficulty engine: the eight earned
dimension scores, their aggregates, and the normalized difficulty
score, mirroring score_details plus the returned score. -/
structure DifficultyResult where
  score_500 : ℝ
  score_1000 : ℝ
  score_1500 : ℝ
  score_95_chars : ℝ
  score_99_chars : ℝ
  score_95_order : ℝ
  score_99_order : ℝ
  score_char_types : ℝ
  raw_score : ℝ
  total_weight : ℝ
  difficulty_score : ℝ

/-- The sum of the eight configured weights, as computed inside
calculate_difficulty_rating. -/
def ScoringConfig.totalWeight (cfg : ScoringConfig) : ℝ :=
  cfg.WEIGHT_COVERAGE_500 + cfg.WEIGHT_COVERAGE_1000 + cfg.WEIGHT_COVERAGE_1500 +
    cfg.WEIGHT_CHARS_95 + cfg.WEIGHT_CHARS_99 +
    cfg.WEIGHT_ORDER_95 + cfg.WEIGHT_ORDER_99 +
    cfg.WEIGHT_CHAR_TYPES

/-- Embedding of calculate_difficulty_rating: extract the coverage
percentages at 500/1000/1500 from the coverage-stats map (defaulting to
0 as dict.get does), extract the 95% and 99% required character counts
by the scan over cumulative_coverage, score the eight dimensions,
aggregate, and normalize by the total weight when it is positive. -/
noncomputable def calculate_difficulty_rating (cfg : ScoringConfig)
    (coverageStats : List (ℕ × CoverageStat)) (cumulativeCoverage : List (ℕ × ℕ × ℚ))
    (avgOrder95 avgOrder99 : Option ℝ) (extraCharTypes : ℕ) : DifficultyResult :=
  let coverage_500 : ℝ := (((List.lookup 500 coverageStats).map CoverageStat.coverage).getD 0 : ℚ)
  let coverage_1000 : ℝ := (((List.lookup 1000 coverageStats).map CoverageStat.coverage).getD 0 : ℚ)
  let coverage_1500 : ℝ := (((List.lookup 1500 coverageStats).map CoverageStat.coverage).getD 0 : ℚ)
  let chars_for_95 : ℕ := cumulativeCoverage.foldl (fun acc p => if p.1 = 95 then p.2.1 else acc) 0
  let chars_for_99 : ℕ := cumulativeCoverage.foldl (fun acc p => if p.1 = 99 then p.2.1 else acc) 0
  let s500 := score_500_of cfg coverage_500
  let s1000 := score_1000_of cfg coverage_1000
  let s1500 := score_1500_of cfg coverage_1500
  let s95c := score_95_chars_of cfg (chars_for_95 : ℝ)
  let s99c := score_99_chars_of cfg (chars_for_99 : ℝ)
  let s95o := score_95_order_of cfg avgOrder95
  let s99o := score_99_order_of cfg avgOrder99
  let sct := score_char_types_of cfg (extraCharTypes : ℝ)
  let rawScore := s500 + s1000 + s1500 + s95c + s99c + s95o + s99o + sct
  let totalWeight := cfg.totalWeight
  let difficultyScore := if totalWeight > 0 then (rawScore / totalWeight) * 100 else 0
  ⟨s500, s1000, s1500, s95c, s99c, s95o, s99o, sct, rawScore, totalWeight, difficultyScore⟩

/-- The degenerate configuration in which every dimension weight is 0,
used to exercise the total_weight = 0 guard. -/
noncomputable def zeroWeightConfig : ScoringConfig :=
  { defaultConfig with
    WEIGHT_COVERAGE_500 := 0
    WEIGHT_COVERAGE_1000 := 0
    WEIGHT_COVERAGE_1500 := 0
    WEIGHT_CHARS_95 := 0
    WEIGHT_CHARS_99 := 0
    WEIGHT_ORDER_95 := 0
    WEIGHT_ORDER_99 := 0
    WEIGHT_CHAR_TYPES := 0 }

/-! ## Auxiliary lemmas -/

/-- A successful association-list lookup comes from a binding that is a
member of the list. -/
theorem mem_of_lookup_eq_some {α : Type} [BEq α] [LawfulBEq α] {β : Type}
    {a : α} {b : β} : ∀ {l : List (α × β)}, List.lookup a l = some b → (a, b) ∈ l := by
  intro l
  induction l with
  | nil => intro h; simp [List.lookup] at h
  | cons p t ih =>
    intro h
    rw [show p = (p.1, p.2) from rfl, List.lookup_cons] at h
    cases hak : a == p.1 with
    | true =>
      rw [hak] at h
      simp only [Option.some.injEq] at h
      have ha : a = p.1 := eq_of_beq hak
      have hp : (a, b) = p := by
        cases p
        simp_all
      rw [hp]
      exact List.mem_cons_self _ _
    | false =>
      rw [hak] at h
      exact List.mem_cons_of_mem _ (ih h)

/-- Looking a key up in a list of bindings of the shape (k, f k) yields
the value of f at that key. -/
theorem lookup_map_eq_some {β : Type} {f : ℕ → β} {n : ℕ} {s : β} :
    ∀ {l : List ℕ}, List.lookup n (l.map (fun k => (k, f k))) = some s → s = f n := by
  intro l
  induction l with
  | nil => intro h; simp [List.lookup] at h
  | cons k t ih =>
    intro h
    simp only [List.map_cons, List.lookup_cons] at h
    cases hnk : n == k with
    | true =>
      rw [hnk] at h
      simp only [Option.some.injEq] at h
      have hk : n = k := eq_of_beq hnk
      rw [← h, hk]
    | false =>
      rw [hnk] at h
      exact ih h

/-! ## Claims about the coverage analyzer -/

/-- C5: for every threshold present in the reference-set cache, every
frequency table and every total, the returned total_count is the sum of
the document counts over the reference set, coverage is
total_count / totalChars * 100 guarded by totalChars > 0, avg_count is
total_count over the set size guarded by nonemptiness, and actual_n is
the set size. -/
theorem coverage_stat_fields (topN : ℕ) (cache : List (ℕ × Finset ℕ))
    (charCounter : ℕ → ℕ) (totalChars : ℕ) (s : Finset ℕ)
    (h : List.lookup topN cache = some s) :
    (calculate_coverage_stats_optimized topN cache charCounter totalChars).total_count
        = ∑ c ∈ s, charCounter c ∧
    (calculate_coverage_stats_optimized topN cache charCounter totalChars).coverage
        = (if 0 < totalChars
            then ((∑ c ∈ s, charCounter c : ℕ) : ℚ) / (totalChars : ℚ) * 100 else 0) ∧
    (calculate_coverage_stats_optimized topN cache charCounter totalChars).avg_count
        = (if 0 < s.card
            then ((∑ c ∈ s, charCounter c : ℕ) : ℚ) / (s.card : ℚ) else 0) ∧
    (calculate_coverage_stats_optimized topN cache charCounter totalChars).actual_n
        = s.card := by
  simp [calculate_coverage_stats_optimized, h]

/-- Witness for C5 at a concrete cache, table and total. -/
theorem coverage_stat_fields_witness :
    (calculate_coverage_stats_optimized 5 [(5, ({1, 2} : Finset ℕ))] (fun c => c) 10).total_count
      = ∑ c ∈ ({1, 2} : Finset ℕ), c :=
  (coverage_stat_fields 5 [(5, {1, 2})] (fun c => c) 10 {1, 2} rfl).1

/-- C10: a threshold absent from the cache is not an error: the
analyzer falls back to the empty reference set and returns the
degenerate all-zero statistic. -/
theorem coverage_missing_threshold (topN : ℕ) (cache : List (ℕ × Finset ℕ))
    (charCounter : ℕ → ℕ) (totalChars : ℕ)
    (h : List.lookup topN cache = none) :
    calculate_coverage_stats_optimized topN cache charCounter totalChars = ⟨0, 0, 0, 0⟩ := by
  simp [calculate_coverage_stats_optimized, h]

/-- Witness for C10 at a concrete absent threshold. -/
theorem coverage_missing_threshold_witness :
    calculate_coverage_stats_optimized 7 [(5, ({1, 2} : Finset ℕ))] (fun c => c) 10
      = ⟨0, 0, 0, 0⟩ :=
  coverage_missing_threshold 7 [(5, {1, 2})] (fun c => c) 10 rfl

/-- C6 counterexample: in the documented scenario (counts 100, 50 and 1
over three characters, total 151, head list of the two most common
characters), the coverage at threshold 2 is not 100 percent as the spec
scenario states. -/
theorem coverage_scenario_counterexample :
    (calculate_coverage_stats_optimized 2
      (precompute_reference_sets [30340, 19968] [(30340, 1), (19968, 2), (20320, 3)] [1, 2])
      (fun c => if c = 30340 then 100 else if c = 19968 then 50 else if c = 20320 then 1 else 0)
      151).coverage ≠ 100 := by
  have hms : ([1, 2] : List ℕ).mergeSort (fun a b => a ≤ b) = [1, 2] :=
    List.mergeSort_of_sorted (by decide)
  have hlk : List.lookup 2
      (precompute_reference_sets [30340, 19968] [(30340, 1), (19968, 2), (20320, 3)] [1, 2])
      = some (refSetFromHead [30340, 19968] [(30340, 1), (19968, 2), (20320, 3)] 2) := by
    rw [precompute_reference_sets]
    simp [hms, List.lookup]
  have hset : refSetFromHead [30340, 19968] [(30340, 1), (19968, 2), (20320, 3)] 2
      = ({30340, 19968} : Finset ℕ) := by
    rw [refSetFromHead]
    decide
  rw [hset] at hlk
  have hsum : (∑ c ∈ ({30340, 19968} : Finset ℕ),
      (if c = 30340 then 100 else if c = 19968 then 50 else if c = 20320 then 1 else 0)) = 150 := by
    decide
  simp only [calculate_coverage_stats_optimized, hlk, Option.getD_some, hsum]
  norm_num

/-- C6 amended: in that scenario the coverage at threshold 1 is
10000 / 151 (about 66.23 percent, as the spec says) and the coverage at
threshold 2 is 15000 / 151 (about 99.34 percent, not 100). -/
theorem coverage_scenario_amended :
    (calculate_coverage_stats_optimized 1
      (precompute_reference_sets [30340, 19968] [(30340, 1), (19968, 2), (20320, 3)] [1, 2])
      (fun c => if c = 30340 then 100 else if c = 19968 then 50 else if c = 20320 then 1 else 0)
      151).coverage = 10000 / 151 ∧
    (calculate_coverage_stats_optimized 2
      (precompute_reference_sets [30340, 19968] [(30340, 1), (19968, 2), (20320, 3)] [1, 2])
      (fun c => if c = 30340 then 100 else if c = 19968 then 50 else if c = 20320 then 1 else 0)
      151).coverage = 15000 / 151 := by
  have hms : ([1, 2] : List ℕ).mergeSort (fun a b => a ≤ b) = [1, 2] :=
    List.mergeSort_of_sorted (by decide)
  have hlk1 : List.lookup 1
      (precompute_reference_sets [30340, 19968] [(30340, 1), (19968, 2), (20320, 3)] [1, 2])
      = some (refSetFromHead [30340, 19968] [(30340, 1), (19968, 2), (20320, 3)] 1) := by
    rw [precompute_reference_sets]
    simp [hms, List.lookup]
  have hlk2 : List.lookup 2
      (precompute_reference_sets [30340, 19968] [(30340, 1), (19968, 2), (20320, 3)] [1, 2])
      = some (refSetFromHead [30340, 19968] [(30340, 1), (19968, 2), (20320, 3)] 2) := by
    rw [precompute_reference_sets]
    simp [hms, List.lookup]
  have hset1 : refSetFromHead [30340, 19968] [(30340, 1), (19968, 2), (20320, 3)] 1
      = ({30340} : Finset ℕ) := by
    rw [refSetFromHead]
    decide
  have hset2 : refSetFromHead [30340, 19968] [(30340, 1), (19968, 2), (20320, 3)] 2
      = ({30340, 19968} : Finset ℕ) := by
    rw [refSetFromHead]
    decide
  rw [hset1] at hlk1
  rw [hset2] at hlk2
  have hsum1 : (∑ c ∈ ({30340} : Finset ℕ),
      (if c = 30340 then 100 else if c = 19968 then 50 else if c = 20320 then 1 else 0)) = 100 := by
    decide
  have hsum2 : (∑ c ∈ ({30340, 19968} : Finset ℕ),
      (if c = 30340 then 100 else if c = 19968 then 50 else if c = 20320 then 1 else 0)) = 150 := by
    decide
  constructor
  · simp only [calculate_coverage_stats_optimized, hlk1, Option.getD_some, hsum1]
    norm_num
  · simp only [calculate_coverage_stats_optimized, hlk2, Option.getD_some, hsum2]
    norm_num

/-! ## Claims about the average-rank calculator -/

/-- C8: the average-rank calculator agrees with the specification-side
mean over the bare character list (so the counts are ignored entirely),
and returns none exactly when no listed character occurs in the rank
mapping. -/
theorem avg_char_order_spec (charsList : List (ℕ × ℕ)) (charOrder : List (ℕ × ℕ)) :
    calculate_avg_char_order charsList charOrder
        = avgRankOverChars (charsList.map Prod.fst) charOrder ∧
    (calculate_avg_char_order charsList charOrder = none ↔
        ∀ p ∈ charsList, List.lookup p.1 charOrder = none) := by
  constructor
  · simp only [calculate_avg_char_order, avgRankOverChars, List.filterMap_map]
    rfl
  · constructor
    · intro h p hp
      simp only [calculate_avg_char_order] at h
      split at h
      · next hemp =>
        rw [List.isEmpty_iff, List.filterMap_eq_nil_iff] at hemp
        exact hemp p hp
      · exact absurd h (by simp)
    · intro h
      simp only [calculate_avg_char_order]
      have : charsList.filterMap (fun p => List.lookup p.1 charOrder) = [] := by
        rw [List.filterMap_eq_nil_iff]
        exact h
      simp [this]

/-! ## Claims about the difficulty engine defaults and guards -/

/-- C7: whenever the average-rank input of the 95 percent (respectively
99 percent) dimension is absent, the engine assigns that dimension an
earned score of exactly half its weight, regardless of every other
input. -/
theorem order_dimension_neutral_default (cfg : ScoringConfig)
    (coverageStats : List (ℕ × CoverageStat)) (cumulativeCoverage : List (ℕ × ℕ × ℚ))
    (avgOrder95 avgOrder99 : Option ℝ) (extraCharTypes : ℕ) :
    (calculate_difficulty_rating cfg coverageStats cumulativeCoverage none avgOrder99
        extraCharTypes).score_95_order = cfg.WEIGHT_ORDER_95 / 2 ∧
    (calculate_difficulty_rating cfg coverageStats cumulativeCoverage avgOrder95 none
        extraCharTypes).score_99_order = cfg.WEIGHT_ORDER_99 / 2 := by
  constructor
  · simp [calculate_difficulty_rating, score_95_order_of]
  · simp [calculate_difficulty_rating, score_99_order_of]

/-- C9: when every one of the eight configured weights is zero, the
engine returns a difficulty score of exactly zero (the total-weight
guard takes the else branch; no division happens). -/
theorem zero_total_weight_zero_score (cfg : ScoringConfig)
    (coverageStats : List (ℕ × CoverageStat)) (cumulativeCoverage : List (ℕ × ℕ × ℚ))
    (avgOrder95 avgOrder99 : Option ℝ) (extraCharTypes : ℕ)
    (h1 : cfg.WEIGHT_COVERAGE_500 = 0) (h2 : cfg.WEIGHT_COVERAGE_1000 = 0)
    (h3 : cfg.WEIGHT_COVERAGE_1500 = 0) (h4 : cfg.WEIGHT_CHARS_95 = 0)
    (h5 : cfg.WEIGHT_CHARS_99 = 0) (h6 : cfg.WEIGHT_ORDER_95 = 0)
    (h7 : cfg.WEIGHT_ORDER_99 = 0) (h8 : cfg.WEIGHT_CHAR_TYPES = 0) :
    (calculate_difficulty_rating cfg coverageStats cumulativeCoverage avgOrder95 avgOrder99
        extraCharTypes).difficulty_score = 0 := by
  simp [calculate_difficulty_rating, ScoringConfig.totalWeight, h1, h2, h3, h4, h5, h6, h7, h8]

/-- Witness for C9 at the all-zero-weight configuration. -/
theorem zero_total_weight_zero_score_witness :
    (calculate_difficulty_rating zeroWeightConfig [] [] none none 0).difficulty_score = 0 :=
  zero_total_weight_zero_score zeroWeightConfig [] [] none none 0
    rfl rfl rfl rfl rfl rfl rfl rfl

/-! ## Monotonicity of the precomputed reference sets -/

/-- The fallback-path reference sets grow with the threshold. -/
theorem refSetFromOrder_mono (charOrder : List (ℕ × ℕ)) {n1 n2 : ℕ} (h : n1 ≤ n2) :
    refSetFromOrder charOrder n1 ⊆ refSetFromOrder charOrder n2 := by
  intro x hx
  simp only [refSetFromOrder, List.mem_toFinset, List.mem_map, List.mem_filter,
    decide_eq_true_eq] at hx ⊢
  obtain ⟨p, ⟨hp, hle⟩, hpx⟩ := hx
  exact ⟨p, ⟨hp, le_trans hle h⟩, hpx⟩

/-- Prefixes of a list grow with their length, at the level of the
element sets. -/
theorem take_toFinset_mono (l : List ℕ) {n1 n2 : ℕ} (h : n1 ≤ n2) :
    (l.take n1).toFinset ⊆ (l.take n2).toFinset := by
  intro x hx
  rw [List.mem_toFinset] at hx ⊢
  have heq : l.take n1 = (l.take n2).take n1 := by
    rw [List.take_take, Nat.min_eq_left h]
  rw [heq] at hx
  exact List.take_subset _ _ hx

/-- The head-path reference sets grow with the threshold. -/
theorem refSetFromHead_mono (referenceChars : List ℕ) (charOrder : List (ℕ × ℕ))
    {n1 n2 : ℕ} (h : n1 ≤ n2) :
    refSetFromHead referenceChars charOrder n1 ⊆ refSetFromHead referenceChars charOrder n2 := by
  by_cases h2 : n2 ≤ referenceChars.length
  · have h1 : n1 ≤ referenceChars.length := le_trans h h2
    rw [refSetFromHead, refSetFromHead, if_pos h1, if_pos h2]
    exact take_toFinset_mono referenceChars h
  · by_cases h1 : n1 ≤ referenceChars.length
    · rw [refSetFromHead, refSetFromHead, if_pos h1, if_neg h2]
      intro x hx
      rw [List.mem_toFinset] at hx
      have hx2 : x ∈ referenceChars.toFinset := by
        rw [List.mem_toFinset]
        exact List.take_subset _ _ hx
      exact Finset.mem_union_left _ hx2
    · rw [refSetFromHead, refSetFromHead, if_neg h1, if_neg h2]
      apply Finset.union_subset_union_right
      intro x hx
      rw [List.mem_toFinset] at hx ⊢
      obtain ⟨p, hp, hpx⟩ := List.mem_map.mp hx
      apply List.mem_map.mpr
      refine ⟨p, ?_, hpx⟩
      have hsub : n1 - referenceChars.length ≤ n2 - referenceChars.length :=
        Nat.sub_le_sub_right h _
      have heq := List.take_take (n1 - referenceChars.length) (n2 - referenceChars.length)
        ((charOrder.mergeSort (fun a b => a.2 ≤ b.2)).filter
          (fun p => p.1 ∉ referenceChars.toFinset))
      rw [Nat.min_eq_left hsub] at heq
      rw [← heq] at hp
      exact List.take_subset _ _ hp

/-- A successful lookup in the precomputed cache returns exactly the
per-threshold set of the path taken (fallback or head). -/
theorem precompute_lookup_eq {referenceChars : List ℕ} {charOrder : List (ℕ × ℕ)}
    {ranges : List ℕ} {n : ℕ} {s : Finset ℕ}
    (h : List.lookup n (precompute_reference_sets referenceChars charOrder ranges) = some s) :
    s = if referenceChars.isEmpty then refSetFromOrder charOrder n
        else refSetFromHead referenceChars charOrder n := by
  rw [precompute_reference_sets] at h
  by_cases hrc : referenceChars.isEmpty
  · rw [if_pos hrc] at h
    rw [if_pos hrc]
    exact lookup_map_eq_some h
  · rw [if_neg hrc] at h
    rw [if_neg hrc]
    exact lookup_map_eq_some h

/-- C3: for any head list, rank mapping and requested thresholds, and
any two thresholds N1 < N2 found in the precomputed cache, the set for
N1 is contained in the set for N2 — on the head-list path and on the
fallback path alike. -/
theorem reference_sets_monotone (referenceChars : List ℕ) (charOrder : List (ℕ × ℕ))
    (ranges : List ℕ) {n1 n2 : ℕ} (s1 s2 : Finset ℕ) (hlt : n1 < n2)
    (h1 : List.lookup n1 (precompute_reference_sets referenceChars charOrder ranges) = some s1)
    (h2 : List.lookup n2 (precompute_reference_sets referenceChars charOrder ranges) = some s2) :
    s1 ⊆ s2 := by
  have e1 := precompute_lookup_eq h1
  have e2 := precompute_lookup_eq h2
  subst e1
  subst e2
  by_cases hrc : referenceChars.isEmpty
  · rw [if_pos hrc, if_pos hrc]
    exact refSetFromOrder_mono charOrder (le_of_lt hlt)
  · rw [if_neg hrc, if_neg hrc]
    exact refSetFromHead_mono referenceChars charOrder (le_of_lt hlt)

/-- Witness for C3 on a concrete fallback-path cache. -/
theorem reference_sets_monotone_witness :
    List.lookup 1 (precompute_reference_sets [] [(7, 1), (8, 2)] [1, 2])
        = some ({7} : Finset ℕ) ∧
    ({7} : Finset ℕ) ⊆ ({7, 8} : Finset ℕ) :=
  ⟨by decide,
    @reference_sets_monotone [] [(7, 1), (8, 2)] [1, 2] 1 2 {7} {7, 8} (by decide)
      (by decide) (by decide)⟩

/-- C4: for a fixed document and a cache built by
precompute_reference_sets, the reported coverage percentage is
non-decreasing in the threshold. -/
theorem coverage_monotone (referenceChars : List ℕ) (charOrder : List (ℕ × ℕ))
    (ranges : List ℕ) (charCounter : ℕ → ℕ) (totalChars : ℕ)
    {n1 n2 : ℕ} (s1 s2 : Finset ℕ) (hlt : n1 < n2)
    (h1 : List.lookup n1 (precompute_reference_sets referenceChars charOrder ranges) = some s1)
    (h2 : List.lookup n2 (precompute_reference_sets referenceChars charOrder ranges) = some s2) :
    (calculate_coverage_stats_optimized n1
        (precompute_reference_sets referenceChars charOrder ranges) charCounter
        totalChars).coverage ≤
    (calculate_coverage_stats_optimized n2
        (precompute_reference_sets referenceChars charOrder ranges) charCounter
        totalChars).coverage := by
  have hsub : s1 ⊆ s2 := reference_sets_monotone referenceChars charOrder ranges s1 s2 hlt h1 h2
  have hsum : (∑ c ∈ s1, charCounter c) ≤ ∑ c ∈ s2, charCounter c :=
    Finset.sum_le_sum_of_subset hsub
  simp only [calculate_coverage_stats_optimized, h1, h2, Option.getD_some]
  by_cases htot : totalChars > 0
  · rw [if_pos htot, if_pos htot]
    have hc : (0 : ℚ) < (totalChars : ℚ) := by exact_mod_cast htot
    apply mul_le_mul_of_nonneg_right _ (by norm_num : (0 : ℚ) ≤ 100)
    exact (div_le_div_iff_of_pos_right hc).mpr (by exact_mod_cast hsum)
  · rw [if_neg htot, if_neg htot]

/-- Witness for C4 on a concrete fallback-path cache and document. -/
theorem coverage_monotone_witness :
    (calculate_coverage_stats_optimized 1
        (precompute_reference_sets [] [(7, 1), (8, 2)] [1, 2]) (fun c => c) 20).coverage ≤
    (calculate_coverage_stats_optimized 2
        (precompute_reference_sets [] [(7, 1), (8, 2)] [1, 2]) (fun c => c) 20).coverage :=
  @coverage_monotone [] [(7, 1), (8, 2)] [1, 2] (fun c => c) 20 1 2 {7} {7, 8} (by decide)
    (by decide) (by decide)

/-! ## Bounds on the difficulty engine -/

/-- A nonnegative weight scaled by an accelerated ratio in the unit
interval stays between 0 and the weight. -/
theorem weight_mul_rpow_bound {w x a : ℝ} (hw : 0 ≤ w) (hx0 : 0 ≤ x) (hx1 : x ≤ 1)
    (ha : 0 ≤ a) : 0 ≤ w * x ^ a ∧ w * x ^ a ≤ w := by
  constructor
  · exact mul_nonneg hw (Real.rpow_nonneg hx0 a)
  · calc w * x ^ a ≤ w * 1 := mul_le_mul_of_nonneg_left (Real.rpow_le_one hx0 hx1 ha) hw
    _ = w := mul_one w

/-- The coverage-at-500 earned score lies in [0, weight] whenever the
weight and the acceleration are nonnegative and the coverage is a
percentage. -/
theorem score_500_of_bound (cfg : ScoringConfig) (c : ℝ)
    (hw : 0 ≤ cfg.WEIGHT_COVERAGE_500) (ha : 0 ≤ cfg.COVERAGE_ACCELERATION)
    (hc0 : 0 ≤ c) (hc1 : c ≤ 100) :
    0 ≤ score_500_of cfg c ∧ score_500_of cfg c ≤ cfg.WEIGHT_COVERAGE_500 := by
  rw [score_500_of]
  split_ifs with hlin hmax hmin
  · exact weight_mul_rpow_bound hw (div_nonneg (by linarith) (by norm_num))
      ((div_le_one (by norm_num)).mpr (by linarith)) ha
  · exact ⟨le_refl 0, hw⟩
  · exact ⟨hw, le_refl _⟩
  · have h1 : cfg.COVERAGE_500_MIN < c := not_le.mp hmin
    have h2 : c < cfg.COVERAGE_500_MAX := not_le.mp hmax
    exact weight_mul_rpow_bound hw (div_nonneg (by linarith) (by linarith))
      ((div_le_one (by linarith)).mpr (by linarith)) ha

/-- The coverage-at-1000 earned score lies in [0, weight] under the
same conditions. -/
theorem score_1000_of_bound (cfg : ScoringConfig) (c : ℝ)
    (hw : 0 ≤ cfg.WEIGHT_COVERAGE_1000) (ha : 0 ≤ cfg.COVERAGE_ACCELERATION)
    (hc0 : 0 ≤ c) (hc1 : c ≤ 100) :
    0 ≤ score_1000_of cfg c ∧ score_1000_of cfg c ≤ cfg.WEIGHT_COVERAGE_1000 := by
  rw [score_1000_of]
  split_ifs with hlin hmax hmin
  · exact weight_mul_rpow_bound hw (div_nonneg (by linarith) (by norm_num))
      ((div_le_one (by norm_num)).mpr (by linarith)) ha
  · exact ⟨le_refl 0, hw⟩
  · exact ⟨hw, le_refl _⟩
  · have h1 : cfg.COVERAGE_1000_MIN < c := not_le.mp hmin
    have h2 : c < cfg.COVERAGE_1000_MAX := not_le.mp hmax
    exact weight_mul_rpow_bound hw (div_nonneg (by linarith) (by linarith))
      ((div_le_one (by linarith)).mpr (by linarith)) ha

/-- The coverage-at-1500 earned score lies in [0, weight] under the
same conditions. -/
theorem score_1500_of_bound (cfg : ScoringConfig) (c : ℝ)
    (hw : 0 ≤ cfg.WEIGHT_COVERAGE_1500) (ha : 0 ≤ cfg.COVERAGE_ACCELERATION)
    (hc0 : 0 ≤ c) (hc1 : c ≤ 100) :
    0 ≤ score_1500_of cfg c ∧ score_1500_of cfg c ≤ cfg.WEIGHT_COVERAGE_1500 := by
  rw [score_1500_of]
  split_ifs with hlin hmax hmin
  · exact weight_mul_rpow_bound hw (div_nonneg (by linarith) (by norm_num))
      ((div_le_one (by norm_num)).mpr (by linarith)) ha
  · exact ⟨le_refl 0, hw⟩
  · exact ⟨hw, le_refl _⟩
  · have h1 : cfg.COVERAGE_1500_MIN < c := not_le.mp hmin
    have h2 : c < cfg.COVERAGE_1500_MAX := not_le.mp hmax
    exact weight_mul_rpow_bound hw (div_nonneg (by linarith) (by linarith))
      ((div_le_one (by linarith)).mpr (by linarith)) ha

/-- The required-characters-at-95 earned score lies in [0, weight] for
a nonnegative weight, for every input value. -/
theorem score_95_chars_of_bound (cfg : ScoringConfig) (v : ℝ)
    (hw : 0 ≤ cfg.WEIGHT_CHARS_95) :
    0 ≤ score_95_chars_of cfg v ∧ score_95_chars_of cfg v ≤ cfg.WEIGHT_CHARS_95 := by
  rw [score_95_chars_of]
  split_ifs with hmin hmax
  · exact ⟨le_refl 0, hw⟩
  · exact ⟨hw, le_refl _⟩
  · have h1 : cfg.CHARS_95_MIN < v := not_le.mp hmin
    have h2 : v < cfg.CHARS_95_MAX := not_le.mp hmax
    rw [mul_div_assoc]
    constructor
    · exact mul_nonneg hw (div_nonneg (by linarith) (by linarith))
    · calc cfg.WEIGHT_CHARS_95 * ((v - cfg.CHARS_95_MIN) / (cfg.CHARS_95_MAX - cfg.CHARS_95_MIN))
          ≤ cfg.WEIGHT_CHARS_95 * 1 :=
            mul_le_mul_of_nonneg_left ((div_le_one (by linarith)).mpr (by linarith)) hw
      _ = cfg.WEIGHT_CHARS_95 := mul_one _

/-- The required-characters-at-99 earned score lies in [0, weight] for
a nonnegative weight, for every input value. -/
theorem score_99_chars_of_bound (cfg : ScoringConfig) (v : ℝ)
    (hw : 0 ≤ cfg.WEIGHT_CHARS_99) :
    0 ≤ score_99_chars_of cfg v ∧ score_99_chars_of cfg v ≤ cfg.WEIGHT_CHARS_99 := by
  rw [score_99_chars_of]
  split_ifs with hmin hmax
  · exact ⟨le_refl 0, hw⟩
  · exact ⟨hw, le_refl _⟩
  · have h1 : cfg.CHARS_99_MIN < v := not_le.mp hmin
    have h2 : v < cfg.CHARS_99_MAX := not_le.mp hmax
    rw [mul_div_assoc]
    constructor
    · exact mul_nonneg hw (div_nonneg (by linarith) (by linarith))
    · calc cfg.WEIGHT_CHARS_99 * ((v - cfg.CHARS_99_MIN) / (cfg.CHARS_99_MAX - cfg.CHARS_99_MIN))
          ≤ cfg.WEIGHT_CHARS_99 * 1 :=
            mul_le_mul_of_nonneg_left ((div_le_one (by linarith)).mpr (by linarith)) hw
      _ = cfg.WEIGHT_CHARS_99 := mul_one _

/-- The average-rank-at-95 earned score lies in [0, weight] for a
nonnegative weight and acceleration, for every optional input. -/
theorem score_95_order_of_bound (cfg : ScoringConfig) (v : Option ℝ)
    (hw : 0 ≤ cfg.WEIGHT_ORDER_95) (ha : 0 ≤ cfg.ORDER_ACCELERATION) :
    0 ≤ score_95_order_of cfg v ∧ score_95_order_of cfg v ≤ cfg.WEIGHT_ORDER_95 := by
  cases v with
  | none =>
    rw [score_95_order_of]
    constructor
    · linarith
    · linarith
  | some x =>
    rw [score_95_order_of]
    split_ifs with hmin hmax
    · exact ⟨le_refl 0, hw⟩
    · exact ⟨hw, le_refl _⟩
    · have h1 : cfg.ORDER_95_MIN < x := not_le.mp hmin
      have h2 : x < cfg.ORDER_95_MAX := not_le.mp hmax
      exact weight_mul_rpow_bound hw (div_nonneg (by linarith) (by linarith))
        ((div_le_one (by linarith)).mpr (by linarith)) ha

/-- The average-rank-at-99 earned score lies in [0, weight] for a
nonnegative weight and acceleration, for every optional input. -/
theorem score_99_order_of_bound (cfg : ScoringConfig) (v : Option ℝ)
    (hw : 0 ≤ cfg.WEIGHT_ORDER_99) (ha : 0 ≤ cfg.ORDER_ACCELERATION) :
    0 ≤ score_99_order_of cfg v ∧ score_99_order_of cfg v ≤ cfg.WEIGHT_ORDER_99 := by
  cases v with
  | none =>
    rw [score_99_order_of]
    constructor
    · linarith
    · linarith
  | some x =>
    rw [score_99_order_of]
    split_ifs with hmin hmax
    · exact ⟨le_refl 0, hw⟩
    · exact ⟨hw, le_refl _⟩
    · have h1 : cfg.ORDER_99_MIN < x := not_le.mp hmin
      have h2 : x < cfg.ORDER_99_MAX := not_le.mp hmax
      exact weight_mul_rpow_bound hw (div_nonneg (by linarith) (by linarith))
        ((div_le_one (by linarith)).mpr (by linarith)) ha

/-- The excess-character-types earned score lies in [0, weight] for a
nonnegative weight, for every input value. -/
theorem score_char_types_of_bound (cfg : ScoringConfig) (v : ℝ)
    (hw : 0 ≤ cfg.WEIGHT_CHAR_TYPES) :
    0 ≤ score_char_types_of cfg v ∧ score_char_types_of cfg v ≤ cfg.WEIGHT_CHAR_TYPES := by
  rw [score_char_types_of]
  split_ifs with hmin hmax
  · exact ⟨le_refl 0, hw⟩
  · exact ⟨hw, le_refl _⟩
  · have h1 : cfg.CHAR_TYPES_MIN < v := not_le.mp hmin
    have h2 : v < cfg.CHAR_TYPES_MAX := not_le.mp hmax
    rw [mul_div_assoc]
    constructor
    · exact mul_nonneg hw (div_nonneg (by linarith) (by linarith))
    · calc cfg.WEIGHT_CHAR_TYPES *
            ((v - cfg.CHAR_TYPES_MIN) / (cfg.CHAR_TYPES_MAX - cfg.CHAR_TYPES_MIN))
          ≤ cfg.WEIGHT_CHAR_TYPES * 1 :=
            mul_le_mul_of_nonneg_left ((div_le_one (by linarith)).mpr (by linarith)) hw
      _ = cfg.WEIGHT_CHAR_TYPES := mul_one _

/-- The coverage value extracted from the stats map through the
dict.get chain stays in [0, 100] whenever every stored coverage does
(the absent default 0 included). -/
theorem coverage_extract_bound (coverageStats : List (ℕ × CoverageStat)) (n : ℕ)
    (hcov : ∀ p ∈ coverageStats, 0 ≤ p.2.coverage ∧ p.2.coverage ≤ 100) :
    0 ≤ ((((List.lookup n coverageStats).map CoverageStat.coverage).getD 0 : ℚ) : ℝ) ∧
    ((((List.lookup n coverageStats).map CoverageStat.coverage).getD 0 : ℚ) : ℝ) ≤ 100 := by
  cases hk : List.lookup n coverageStats with
  | none => norm_num
  | some st =>
    have hmem := mem_of_lookup_eq_some hk
    have hb := hcov _ hmem
    simp only [Option.map_some', Option.getD_some]
    constructor
    · exact_mod_cast hb.1
    · exact_mod_cast hb.2

/-- C1: for every valid scoring configuration (nonnegative weights and
acceleration exponents) with positive total weight, and every document
input whose stored coverage values are percentages (the required
character counts and the excess type count are naturals, hence
nonnegative, and each average-rank input is a positive real or
absent), every one of the eight earned dimension scores lies between 0
and its configured weight, and the returned difficulty score lies in
[0, 100]. -/
theorem difficulty_score_bounds (cfg : ScoringConfig)
    (coverageStats : List (ℕ × CoverageStat)) (cumulativeCoverage : List (ℕ × ℕ × ℚ))
    (avgOrder95 avgOrder99 : Option ℝ) (extraCharTypes : ℕ) (r : DifficultyResult)
    (hw1 : 0 ≤ cfg.WEIGHT_COVERAGE_500) (hw2 : 0 ≤ cfg.WEIGHT_COVERAGE_1000)
    (hw3 : 0 ≤ cfg.WEIGHT_COVERAGE_1500) (hw4 : 0 ≤ cfg.WEIGHT_CHARS_95)
    (hw5 : 0 ≤ cfg.WEIGHT_CHARS_99) (hw6 : 0 ≤ cfg.WEIGHT_ORDER_95)
    (hw7 : 0 ≤ cfg.WEIGHT_ORDER_99) (hw8 : 0 ≤ cfg.WEIGHT_CHAR_TYPES)
    (hca : 0 ≤ cfg.COVERAGE_ACCELERATION) (hoa : 0 ≤ cfg.ORDER_ACCELERATION)
    (htw : 0 < cfg.totalWeight)
    (hcov : ∀ p ∈ coverageStats, 0 ≤ p.2.coverage ∧ p.2.coverage ≤ 100)
    (h95 : ∀ v : ℝ, avgOrder95 = some v → 0 < v)
    (h99 : ∀ v : ℝ, avgOrder99 = some v → 0 < v)
    (hr : r = calculate_difficulty_rating cfg coverageStats cumulativeCoverage
        avgOrder95 avgOrder99 extraCharTypes) :
    (0 ≤ r.score_500 ∧ r.score_500 ≤ cfg.WEIGHT_COVERAGE_500) ∧
    (0 ≤ r.score_1000 ∧ r.score_1000 ≤ cfg.WEIGHT_COVERAGE_1000) ∧
    (0 ≤ r.score_1500 ∧ r.score_1500 ≤ cfg.WEIGHT_COVERAGE_1500) ∧
    (0 ≤ r.score_95_chars ∧ r.score_95_chars ≤ cfg.WEIGHT_CHARS_95) ∧
    (0 ≤ r.score_99_chars ∧ r.score_99_chars ≤ cfg.WEIGHT_CHARS_99) ∧
    (0 ≤ r.score_95_order ∧ r.score_95_order ≤ cfg.WEIGHT_ORDER_95) ∧
    (0 ≤ r.score_99_order ∧ r.score_99_order ≤ cfg.WEIGHT_ORDER_99) ∧
    (0 ≤ r.score_char_types ∧ r.score_char_types ≤ cfg.WEIGHT_CHAR_TYPES) ∧
    (0 ≤ r.difficulty_score ∧ r.difficulty_score ≤ 100) := by
  subst hr
  have hb500 := score_500_of_bound cfg _ hw1 hca
    (coverage_extract_bound coverageStats 500 hcov).1 (coverage_extract_bound coverageStats 500 hcov).2
  have hb1000 := score_1000_of_bound cfg _ hw2 hca
    (coverage_extract_bound coverageStats 1000 hcov).1
    (coverage_extract_bound coverageStats 1000 hcov).2
  have hb1500 := score_1500_of_bound cfg _ hw3 hca
    (coverage_extract_bound coverageStats 1500 hcov).1
    (coverage_extract_bound coverageStats 1500 hcov).2
  have hb95c := score_95_chars_of_bound cfg
    ((cumulativeCoverage.foldl (fun acc p => if p.1 = 95 then p.2.1 else acc) 0 : ℕ) : ℝ) hw4
  have hb99c := score_99_chars_of_bound cfg
    ((cumulativeCoverage.foldl (fun acc p => if p.1 = 99 then p.2.1 else acc) 0 : ℕ) : ℝ) hw5
  have hb95o := score_95_order_of_bound cfg avgOrder95 hw6 hoa
  have hb99o := score_99_order_of_bound cfg avgOrder99 hw7 hoa
  have hbct := score_char_types_of_bound cfg ((extraCharTypes : ℕ) : ℝ) hw8
  simp only [calculate_difficulty_rating]
  refine ⟨hb500, hb1000, hb1500, hb95c, hb99c, hb95o, hb99o, hbct, ?_, ?_⟩
  · rw [if_pos htw]
    apply mul_nonneg _ (by norm_num : (0 : ℝ) ≤ 100)
    apply div_nonneg _ (le_of_lt htw)
    linarith [hb500.1, hb1000.1, hb1500.1, hb95c.1, hb99c.1, hb95o.1, hb99o.1, hbct.1]
  · rw [if_pos htw, div_mul_eq_mul_div, div_le_iff₀ htw]
    have htweq : cfg.totalWeight = cfg.WEIGHT_COVERAGE_500 + cfg.WEIGHT_COVERAGE_1000 +
        cfg.WEIGHT_COVERAGE_1500 + cfg.WEIGHT_CHARS_95 + cfg.WEIGHT_CHARS_99 +
        cfg.WEIGHT_ORDER_95 + cfg.WEIGHT_ORDER_99 + cfg.WEIGHT_CHAR_TYPES := rfl
    linarith [hb500.2, hb1000.2, hb1500.2, hb95c.2, hb99c.2, hb95o.2, hb99o.2, hbct.2]

/-- Witness for C1 at the shipped configuration and an empty document
input. -/
theorem difficulty_score_bounds_witness :
    0 ≤ (calculate_difficulty_rating defaultConfig [] [] none none 0).difficulty_score ∧
    (calculate_difficulty_rating defaultConfig [] [] none none 0).difficulty_score ≤ 100 :=
  (difficulty_score_bounds defaultConfig [] [] none none 0
    (calculate_difficulty_rating defaultConfig [] [] none none 0)
    (by norm_num [defaultConfig]) (by norm_num [defaultConfig]) (by norm_num [defaultConfig])
    (by norm_num [defaultConfig]) (by norm_num [defaultConfig]) (by norm_num [defaultConfig])
    (by norm_num [defaultConfig]) (by norm_num [defaultConfig]) (by norm_num [defaultConfig])
    (by norm_num [defaultConfig]) (by norm_num [defaultConfig, ScoringConfig.totalWeight])
    (by simp) (by simp) (by simp) rfl).2.2.2.2.2.2.2.2

/-! ## The cumulative coverage walk -/

/-- For a sorted list and a predicate that is downward closed along the
order, the satisfying elements form a prefix: filtering them and then
the rest reassembles the list. -/
theorem filter_append_filter_not_of_antitone {p : ℕ → Bool} :
    ∀ {l : List ℕ}, l.Pairwise (· ≤ ·) →
      (∀ a b : ℕ, a ≤ b → p b = true → p a = true) →
      l.filter p ++ l.filter (fun x => ! p x) = l := by
  intro l
  induction l with
  | nil => intro _ _; rfl
  | cons a t ih =>
    intro hs hp
    rw [List.pairwise_cons] at hs
    cases hpa : p a with
    | true =>
      rw [List.filter_cons_of_pos hpa, List.filter_cons_of_neg (by simp [hpa]),
        List.cons_append, ih hs.2 hp]
    | false =>
      have hnone : ∀ b ∈ t, ¬ p b = true := by
        intro b hb hpb
        have := hp a b (hs.1 b hb) hpb
        rw [hpa] at this
        exact Bool.false_ne_true this
      rw [List.filter_cons_of_neg (by simp [hpa]),
        List.filter_cons_of_pos (by simp [hpa]),
        List.filter_eq_nil_iff.mpr hnone, List.nil_append,
        List.filter_eq_self.mpr (by intro b hb; simp [hnone b hb])]

/-- Everything firstHit returns is a legal position: at least 1, at
most the list length, the coverage percentage there reaches the
milestone, and every strictly earlier position falls short. -/
theorem firstHit_spec {totalChars m : ℕ} :
    ∀ {l : List (ℕ × ℕ)} {cum j : ℕ}, firstHit totalChars m cum l = some j →
      1 ≤ j ∧ j ≤ l.length ∧
      (m : ℚ) ≤ coveragePctAt totalChars (cum + prefixCount l j) ∧
      ∀ i, 1 ≤ i → i < j → coveragePctAt totalChars (cum + prefixCount l i) < m := by
  intro l
  induction l with
  | nil => intro cum j h; simp [firstHit] at h
  | cons hd rest ih =>
    obtain ⟨c, k⟩ := hd
    intro cum j h
    rw [firstHit] at h
    split at h
    · next hle =>
      rw [Option.some.injEq] at h
      subst h
      refine ⟨le_refl 1, by simp, ?_, ?_⟩
      · simpa [prefixCount] using hle
      · intro i h1 h2
        omega
    · next hnle =>
      rw [Option.map_eq_some'] at h
      obtain ⟨j', hj', hjeq⟩ := h
      obtain ⟨ih1, ih2, ih3, ih4⟩ := ih hj'
      subst hjeq
      refine ⟨by omega, by simp; omega, ?_, ?_⟩
      · have : prefixCount ((c, k) :: rest) (j' + 1) = k + prefixCount rest j' := by
          simp [prefixCount]
        rw [this, ← Nat.add_assoc]
        exact ih3
      · intro i h1 h2
        match i, h1 with
        | 1, _ =>
          have : prefixCount ((c, k) :: rest) 1 = k := by simp [prefixCount]
          rw [this]
          exact lt_of_not_le hnle
        | (i' + 2), _ =>
          have : prefixCount ((c, k) :: rest) (i' + 2) = k + prefixCount rest (i' + 1) := by
            simp [prefixCount]
          rw [this, ← Nat.add_assoc]
          exact ih4 (i' + 1) (by omega) (by omega)

/-- firstHit is monotone in the milestone: a lower milestone is hit no
later. -/
theorem firstHit_mono {totalChars m1 m2 : ℕ} (hm : m1 ≤ m2) :
    ∀ {l : List (ℕ × ℕ)} {cum j1 j2 : ℕ},
      firstHit totalChars m1 cum l = some j1 →
      firstHit totalChars m2 cum l = some j2 → j1 ≤ j2 := by
  intro l
  induction l with
  | nil => intro cum j1 j2 h1 _; simp [firstHit] at h1
  | cons hd rest ih =>
    obtain ⟨c, k⟩ := hd
    intro cum j1 j2 h1 h2
    rw [firstHit] at h1 h2
    by_cases hle2 : (m2 : ℚ) ≤ coveragePctAt totalChars (cum + k)
    · have hle1 : (m1 : ℚ) ≤ coveragePctAt totalChars (cum + k) :=
        le_trans (by exact_mod_cast hm) hle2
      rw [if_pos hle1, Option.some.injEq] at h1
      rw [if_pos hle2, Option.some.injEq] at h2
      omega
    · rw [if_neg hle2, Option.map_eq_some'] at h2
      obtain ⟨j2', hj2', hjeq2⟩ := h2
      by_cases hle1 : (m1 : ℚ) ≤ coveragePctAt totalChars (cum + k)
      · rw [if_pos hle1, Option.some.injEq] at h1
        omega
      · rw [if_neg hle1, Option.map_eq_some'] at h1
        obtain ⟨j1', hj1', hjeq1⟩ := h1
        have := ih hj1' hj2'
        omega

/-- firstHit succeeds on a non-empty list as soon as the milestone is
below the coverage of the full prefix. -/
theorem firstHit_isSome {totalChars m : ℕ} :
    ∀ {l : List (ℕ × ℕ)} {cum : ℕ}, l ≠ [] →
      (m : ℚ) ≤ coveragePctAt totalChars (cum + countSum l) →
      (firstHit totalChars m cum l).isSome := by
  intro l
  induction l with
  | nil => intro cum h _; exact absurd rfl h
  | cons hd rest ih =>
    obtain ⟨c, k⟩ := hd
    intro cum _ hreach
    rw [firstHit]
    by_cases hle : (m : ℚ) ≤ coveragePctAt totalChars (cum + k)
    · rw [if_pos hle]
      rfl
    · rw [if_neg hle]
      cases hrest : rest with
      | nil =>
        exfalso
        apply hle
        have : countSum ((c, k) :: rest) = k := by simp [hrest, countSum]
        rw [this] at hreach
        exact hreach
      | cons q t =>
        subst hrest
        have hreach2 : (m : ℚ) ≤ coveragePctAt totalChars ((cum + k) + countSum (q :: t)) := by
          have heq : cum + countSum ((c, k) :: q :: t) = (cum + k) + countSum (q :: t) := by
            simp [countSum]
            omega
          rw [heq] at hreach
          exact hreach
        obtain ⟨j, hj⟩ := Option.isSome_iff_exists.mp (ih (by simp) hreach2)
        rw [hj]
        rfl

/-- The walk emits exactly the pending milestones that are eventually
hit, each tagged with its first hit position and the coverage
percentage there, in pending order. -/
theorem walkAux_eq (total : ℕ) :
    ∀ (l : List (ℕ × ℕ)) (idx cum : ℕ) (pending : List ℕ),
      pending.Pairwise (· ≤ ·) →
      (∀ m ∈ pending, (firstHit total m cum l).isSome) →
      walkAux total l idx cum pending =
        pending.map (fun m => (m, idx + (firstHit total m cum l).getD 1 - 1,
          coveragePctAt total (cum + prefixCount l ((firstHit total m cum l).getD 1)))) := by
  intro l
  induction l with
  | nil =>
    intro idx cum pending hsort hsome
    have hpe : pending = [] := by
      cases pending with
      | nil => rfl
      | cons a t =>
        have := hsome a (List.mem_cons_self a t)
        simp [firstHit] at this
    subst hpe
    rfl
  | cons hd rest ih =>
    obtain ⟨c, k⟩ := hd
    intro idx cum pending hsort hsome
    have hanti : ∀ a b : ℕ, a ≤ b →
        (fun (m : ℕ) => decide ((m : ℚ) ≤ coveragePctAt total (cum + k))) b = true →
        (fun (m : ℕ) => decide ((m : ℚ) ≤ coveragePctAt total (cum + k))) a = true := by
      intro a b hab hpb
      rw [decide_eq_true_eq] at hpb ⊢
      exact le_trans (by exact_mod_cast Nat.cast_le.mpr hab) hpb
    have hsplit := filter_append_filter_not_of_antitone hsort hanti
    have hfirstP : ∀ m ∈ pending.filter
        (fun (m : ℕ) => decide ((m : ℚ) ≤ coveragePctAt total (cum + k))),
        firstHit total m cum ((c, k) :: rest) = some 1 := by
      intro m hm
      rw [List.mem_filter, decide_eq_true_eq] at hm
      rw [firstHit, if_pos hm.2]
    have hfirstN : ∀ m ∈ pending.filter
        (fun (m : ℕ) => ! decide ((m : ℚ) ≤ coveragePctAt total (cum + k))),
        firstHit total m cum ((c, k) :: rest)
          = (firstHit total m (cum + k) rest).map (· + 1) := by
      intro m hm
      rw [List.mem_filter] at hm
      have hn : ¬ (m : ℚ) ≤ coveragePctAt total (cum + k) := by
        simpa using hm.2
      rw [firstHit, if_neg hn]
    have hexN : ∀ m ∈ pending.filter
        (fun (m : ℕ) => ! decide ((m : ℚ) ≤ coveragePctAt total (cum + k))),
        ∃ j, firstHit total m (cum + k) rest = some j := by
      intro m hm
      have h1 := hsome m (List.mem_of_mem_filter hm)
      rw [hfirstN m hm] at h1
      cases hfh : firstHit total m (cum + k) rest with
      | none => rw [hfh] at h1; simp at h1
      | some j => exact ⟨j, rfl⟩
    have hmapP : (pending.filter
        (fun (m : ℕ) => decide ((m : ℚ) ≤ coveragePctAt total (cum + k)))).map
          (fun m => ((m : ℕ), idx, coveragePctAt total (cum + k)))
        = (pending.filter
            (fun (m : ℕ) => decide ((m : ℚ) ≤ coveragePctAt total (cum + k)))).map
          (fun m => (m, idx + (firstHit total m cum ((c, k) :: rest)).getD 1 - 1,
            coveragePctAt total
              (cum + prefixCount ((c, k) :: rest)
                ((firstHit total m cum ((c, k) :: rest)).getD 1)))) := by
      apply List.map_congr_left
      intro m hm
      rw [hfirstP m hm]
      have hpc : prefixCount ((c, k) :: rest) 1 = k := by simp [prefixCount]
      simp only [Option.getD_some, hpc, Nat.add_sub_cancel]
    simp only [walkAux]
    by_cases hemp : (pending.filter
        (fun (m : ℕ) => ! decide ((m : ℚ) ≤ coveragePctAt total (cum + k)))).isEmpty
    · rw [if_pos hemp]
      have hnil := List.isEmpty_iff.mp hemp
      conv_rhs => rw [← hsplit, List.map_append]
      rw [hnil, List.map_nil, List.append_nil]
      exact hmapP
    · rw [if_neg hemp]
      have hsort2 := hsort.filter
        (fun (m : ℕ) => ! decide ((m : ℚ) ≤ coveragePctAt total (cum + k)))
      have hsome2 : ∀ m ∈ pending.filter
          (fun (m : ℕ) => ! decide ((m : ℚ) ≤ coveragePctAt total (cum + k))),
          (firstHit total m (cum + k) rest).isSome := by
        intro m hm
        obtain ⟨j, hj⟩ := hexN m hm
        rw [hj]
        rfl
      rw [ih (idx + 1) (cum + k) _ hsort2 hsome2]
      have hmapN : (pending.filter
          (fun (m : ℕ) => ! decide ((m : ℚ) ≤ coveragePctAt total (cum + k)))).map
            (fun m => ((m : ℕ), idx + 1 + (firstHit total m (cum + k) rest).getD 1 - 1,
              coveragePctAt total
                (cum + k + prefixCount rest ((firstHit total m (cum + k) rest).getD 1))))
          = (pending.filter
              (fun (m : ℕ) => ! decide ((m : ℚ) ≤ coveragePctAt total (cum + k)))).map
            (fun m => (m, idx + (firstHit total m cum ((c, k) :: rest)).getD 1 - 1,
              coveragePctAt total
                (cum + prefixCount ((c, k) :: rest)
                  ((firstHit total m cum ((c, k) :: rest)).getD 1)))) := by
        apply List.map_congr_left
        intro m hm
        obtain ⟨j, hj⟩ := hexN m hm
        rw [hfirstN m hm, hj]
        simp only [Option.map_some', Option.getD_some]
        have hpc : prefixCount ((c, k) :: rest) (j + 1) = k + prefixCount rest j := by
          simp [prefixCount]
        rw [hpc]
        simp only [Prod.mk.injEq]
        exact ⟨trivial, by omega, by rw [Nat.add_assoc]⟩
      rw [hmapP, hmapN]
      conv_rhs => rw [← hsplit, List.map_append]

/-- Sorting the items by descending count does not change the total
count. -/
theorem countSum_all_chars_by_freq (items : List (ℕ × ℕ)) :
    countSum (all_chars_by_freq items) = countSum items :=
  ((List.mergeSort_perm items (fun a b => b.2 ≤ a.2)).map Prod.snd).sum_eq

/-- C2: for a frequency table whose counts sum to a positive total, the
cumulative coverage sequence is exactly one point per milestone 50, 80,
90, 95, 99 — placed at the first 1-based position of the
frequency-descending scan whose cumulative percentage reaches the
milestone, with that percentage recorded — followed by the final point
(100, distinct-count, 100); the milestones appear in strictly
increasing target order, the character counts are non-decreasing, and
the sequence ends with the 100 point. -/
theorem cumulative_coverage_spec (items : List (ℕ × ℕ)) (total : ℕ)
    (htot : total = countSum items) (hpos : 0 < total) :
    cumulative_coverage_of items total =
      milestoneList.map (fun m => (m,
        (firstHit total m 0 (all_chars_by_freq items)).getD 1,
        coveragePctAt total (prefixCount (all_chars_by_freq items)
          ((firstHit total m 0 (all_chars_by_freq items)).getD 1)))) ++
      [(100, items.length, (100 : ℚ))] ∧
    (∀ m ∈ milestoneList, ∃ j, firstHit total m 0 (all_chars_by_freq items) = some j ∧
      1 ≤ j ∧ j ≤ items.length ∧
      (m : ℚ) ≤ coveragePctAt total (prefixCount (all_chars_by_freq items) j) ∧
      ∀ i, 1 ≤ i → i < j →
        coveragePctAt total (prefixCount (all_chars_by_freq items) i) < m) ∧
    (∀ m ∈ milestoneList,
      ((cumulative_coverage_of items total).filter (fun q => q.1 == m)).length = 1) ∧
    List.Chain' (fun q r => q.1 < r.1) (cumulative_coverage_of items total) ∧
    List.Chain' (fun q r => q.2.1 ≤ r.2.1) (cumulative_coverage_of items total) ∧
    (cumulative_coverage_of items total).getLast? = some (100, items.length, (100 : ℚ)) := by
  have hsum := countSum_all_chars_by_freq items
  have hlen : (all_chars_by_freq items).length = items.length := List.length_mergeSort items
  have hne : all_chars_by_freq items ≠ [] := by
    intro h
    rw [h] at hlen
    have hit : items = [] := List.length_eq_zero.mp hlen.symm
    rw [hit] at htot
    simp [countSum] at htot
    omega
  have hreach : ∀ m ∈ milestoneList,
      (m : ℚ) ≤ coveragePctAt total (0 + countSum (all_chars_by_freq items)) := by
    intro m hm
    rw [Nat.zero_add, hsum, ← htot]
    have h100 : coveragePctAt total total = 100 := by
      rw [coveragePctAt, div_self (by exact_mod_cast Nat.pos_iff_ne_zero.mp hpos)]
      norm_num
    rw [h100]
    simp only [milestoneList, List.mem_cons, List.mem_singleton] at hm
    rcases hm with rfl | rfl | rfl | rfl | rfl | hm
    · norm_num
    · norm_num
    · norm_num
    · norm_num
    · norm_num
    · simp at hm
  have hsome : ∀ m ∈ milestoneList, (firstHit total m 0 (all_chars_by_freq items)).isSome :=
    fun m hm => firstHit_isSome hne (hreach m hm)
  have hsorted : milestoneList.Pairwise (· ≤ ·) := by decide
  have hwalk := walkAux_eq total (all_chars_by_freq items) 1 0 milestoneList hsorted hsome
  have heq : cumulative_coverage_of items total =
      milestoneList.map (fun m => (m,
        (firstHit total m 0 (all_chars_by_freq items)).getD 1,
        coveragePctAt total (prefixCount (all_chars_by_freq items)
          ((firstHit total m 0 (all_chars_by_freq items)).getD 1)))) ++
      [(100, items.length, (100 : ℚ))] := by
    rw [cumulative_coverage_of, hwalk]
    congr 1
    apply List.map_congr_left
    intro m hm
    have h1 : 1 + (firstHit total m 0 (all_chars_by_freq items)).getD 1 - 1
        = (firstHit total m 0 (all_chars_by_freq items)).getD 1 := by omega
    rw [h1]
    simp only [Nat.zero_add]
  refine ⟨heq, ?_, ?_, ?_, ?_, ?_⟩
  · intro m hm
    obtain ⟨j, hj⟩ := Option.isSome_iff_exists.mp (hsome m hm)
    obtain ⟨h1, h2, h3, h4⟩ := firstHit_spec hj
    rw [Nat.zero_add] at h3
    refine ⟨j, hj, h1, le_trans h2 (le_of_eq hlen), h3, ?_⟩
    intro i hi1 hi2
    have := h4 i hi1 hi2
    rw [Nat.zero_add] at this
    exact this
  · intro m hm
    rw [heq, List.filter_append, List.length_append]
    simp only [milestoneList, List.mem_cons, List.mem_singleton] at hm
    rcases hm with rfl | rfl | rfl | rfl | rfl | hm
    · simp [milestoneList, List.filter]
    · simp [milestoneList, List.filter]
    · simp [milestoneList, List.filter]
    · simp [milestoneList, List.filter]
    · simp [milestoneList, List.filter]
    · simp at hm
  · rw [heq]
    simp only [milestoneList, List.map_cons, List.map_nil, List.cons_append, List.nil_append]
    simp [List.chain'_cons]
  · rw [heq]
    obtain ⟨j50, h50⟩ := Option.isSome_iff_exists.mp (hsome 50 (by decide))
    obtain ⟨j80, h80⟩ := Option.isSome_iff_exists.mp (hsome 80 (by decide))
    obtain ⟨j90, h90⟩ := Option.isSome_iff_exists.mp (hsome 90 (by decide))
    obtain ⟨j95, h95⟩ := Option.isSome_iff_exists.mp (hsome 95 (by decide))
    obtain ⟨j99, h99⟩ := Option.isSome_iff_exists.mp (hsome 99 (by decide))
    have hm1 : j50 ≤ j80 := firstHit_mono (by norm_num) h50 h80
    have hm2 : j80 ≤ j90 := firstHit_mono (by norm_num) h80 h90
    have hm3 : j90 ≤ j95 := firstHit_mono (by norm_num) h90 h95
    have hm4 : j95 ≤ j99 := firstHit_mono (by norm_num) h95 h99
    have hm5 : j99 ≤ items.length := le_trans (firstHit_spec h99).2.1 (le_of_eq hlen)
    simp only [milestoneList, List.map_cons, List.map_nil, List.cons_append, List.nil_append,
      h50, h80, h90, h95, h99, Option.getD_some]
    simp only [List.chain'_cons, List.chain'_singleton]
    exact ⟨hm1, hm2, hm3, hm4, hm5, trivial⟩
  · rw [heq]
    simp

/-- Witness for C2 on a concrete two-character document. -/
theorem cumulative_coverage_spec_witness :
    (cumulative_coverage_of [(1, 3), (2, 1)] 4).getLast? = some (100, 2, (100 : ℚ)) :=
  (cumulative_coverage_spec [(1, 3), (2, 1)] 4 (by decide) (by decide)).2.2.2.2.2
